import Mathlib

/-!
# Verification of the statmorph per-source morphology engine

Shallow embedding of `statmorph.py` (single-file repository): the per-source
morphology engine that computes Gini/M20, CAS, MID and shape-asymmetry
statistics with a monotone quality-flag system.

Modelling conventions:
* Machine floats are modelled by exact rationals `ℚ`; the float distinction
  "finite vs non-finite (nan/inf)" — which the code tests with `np.isfinite`
  — is modelled by the two-constructor type `Val` below.  No claim in this
  development depends on rounding.
* 2D numpy arrays are modelled either as index functions `ℕ → ℕ → _` together
  with explicit dimensions, or as flat `List`s when the operation is
  pointwise/order based.
* External numeric capabilities (photutils exact aperture photometry,
  `scipy.optimize.brentq`, `np.sqrt`) are modelled as explicit function
  parameters or by an executable bisection stand-in, exactly at the
  granularity at which the Python code consumes them.
* Python `while True` loops that have no syntactic bound are embedded with an
  explicit fuel argument; returning `none` (or the `exhausted` outcome)
  models the loop not having terminated within the fuel, never a fabricated
  result.
-/

namespace Statmorph

/-- A float value as the statmorph code observes it: either a finite value
(modelled exactly by a rational) or a non-finite value (nan/inf), which is
what `np.isfinite` distinguishes.  The code under verification never branches
on nan-vs-inf, only on finiteness, so one non-finite constructor suffices. -/
inductive Val where
  | fin (q : ℚ) : Val
  | nan : Val
deriving DecidableEq, Repr

namespace Val

/-- `np.isfinite`. -/
def isFinite : Val → Bool
  | fin _ => true
  | nan => false

/-- Extract the rational of a finite value (`0` for non-finite values; only
used on branches where finiteness has already been established). -/
def toRat : Val → ℚ
  | fin q => q
  | nan => 0

end Val

/-! ## Bad-pixel filter (`SourceMorphology._remove_badpixels`, lines 291-318)

`ndi.convolve` with the 3×3 uniform-minus-center kernel and the scipy default
boundary mode `reflect`: an out-of-range index `-1` reads row/column `0`, and
an out-of-range index `n` reads row/column `n-1` (offsets are only ±1 here).
-/

/-- Index reflection for scipy's `mode='reflect'` boundary handling,
adequate for the ±1 offsets used by the 3×3 kernel. -/
def reflectIdx (n : ℕ) (i : ℤ) : ℕ :=
  if i < 0 then 0 else if (n : ℤ) ≤ i then n - 1 else i.toNat

/-- The eight neighbor offsets of the `[[1,1,1],[1,0,1],[1,1,1]]/8` kernel. -/
def neighborOffsets : List (ℤ × ℤ) :=
  [(-1, -1), (-1, 0), (-1, 1), (0, -1), (0, 1), (1, -1), (1, 0), (1, 1)]

/-- `ndi.convolve(image, w)` at one pixel: the mean of the 8 reflected
neighbors (the kernel weights are `1/8` off-center, `0` at the center). -/
def localMean (img : ℕ → ℕ → ℚ) (ny nx i j : ℕ) : ℚ :=
  (neighborOffsets.map fun d =>
    img (reflectIdx ny ((i : ℤ) + d.1)) (reflectIdx nx ((j : ℤ) + d.2))).sum / 8

/-- `ndi.convolve(image**2, w)` at one pixel. -/
def localMean2 (img : ℕ → ℕ → ℚ) (ny nx i j : ℕ) : ℚ :=
  (neighborOffsets.map fun d =>
    (img (reflectIdx ny ((i : ℤ) + d.1)) (reflectIdx nx ((j : ℤ) + d.2))) ^ 2).sum / 8

/-- The outlier test `|image - local_mean| > n_sigma_outlier * local_std`
with `local_std = sqrt(local_mean2 - local_mean²)`, written in the
equivalent squared form `(image - local_mean)² > n_sigma_outlier² * var`
(equivalent because `n_sigma_outlier ≥ 0` and, in exact arithmetic,
`E[x²] - E[x]² ≥ 0`). -/
def isBadPixel (img : ℕ → ℕ → ℚ) (ny nx : ℕ) (nSigma : ℚ) (i j : ℕ) : Prop :=
  (img i j - localMean img ny nx i j) ^ 2 >
    nSigma ^ 2 * (localMean2 img ny nx i j - (localMean img ny nx i j) ^ 2)

instance (img : ℕ → ℕ → ℚ) (ny nx : ℕ) (nSigma : ℚ) (i j : ℕ) :
    Decidable (isBadPixel img ny nx nSigma i j) :=
  inferInstanceAs (Decidable (_ > _))

/-- `num_badpixels = np.sum(bad_pixels)` over the whole image. -/
def countBadpixels (img : ℕ → ℕ → ℚ) (ny nx : ℕ) (nSigma : ℚ) : ℕ :=
  ((Finset.range ny ×ˢ Finset.range nx).filter
    fun p => isBadPixel img ny nx nSigma p.1 p.2).card

/-- Lines 250-253 of `SourceMorphology.__init__`:
`self.num_badpixels = -1`, overwritten with the filter's count only when
`self._remove_outliers` is true. -/
def numBadpixelsInit (removeOutliers : Bool) (img : ℕ → ℕ → ℚ) (ny nx : ℕ)
    (nSigma : ℚ) : ℤ :=
  if removeOutliers then (countBadpixels img ny nx nSigma : ℤ) else -1

theorem localMean_const (c : ℚ) (ny nx i j : ℕ) :
    localMean (fun _ _ => c) ny nx i j = c := by
  simp [localMean, neighborOffsets]
  ring

theorem localMean2_const (c : ℚ) (ny nx i j : ℕ) :
    localMean2 (fun _ _ => c) ny nx i j = c ^ 2 := by
  simp [localMean2, neighborOffsets]
  ring

theorem isBadPixel_const_false (c nSigma : ℚ) (ny nx i j : ℕ) :
    ¬ isBadPixel (fun _ _ => c) ny nx nSigma i j := by
  unfold isBadPixel
  rw [localMean_const, localMean2_const]
  simp

theorem countBadpixels_const (c nSigma : ℚ) (ny nx : ℕ) :
    countBadpixels (fun _ _ => c) ny nx nSigma = 0 := by
  unfold countBadpixels
  rw [Finset.card_eq_zero, Finset.filter_eq_empty_iff]
  intro p _
  exact isBadPixel_const_false c nSigma ny nx p.1 p.2

/-- **C10.** With `remove_outliers` disabled the exposed bad-pixel count is
the sentinel `-1`, never `0`, so a caller can tell "filter disabled" apart
from "filter ran and removed zero pixels" — a value the filter can actually
produce (e.g. on a constant image). -/
theorem C10_num_badpixels_sentinel :
    (∀ img : ℕ → ℕ → ℚ, ∀ ny nx : ℕ, ∀ nSigma : ℚ,
      numBadpixelsInit false img ny nx nSigma = -1) ∧
    (-1 : ℤ) ≠ 0 ∧
    numBadpixelsInit true (fun _ _ => 1) 2 2 10 = 0 := by
  refine ⟨fun img ny nx nSigma => rfl, by decide, ?_⟩
  unfold numBadpixelsInit
  rw [if_pos rfl, countBadpixels_const]
  rfl

/-! ## The construction-time writes to the caller's arrays
(`SourceMorphology.__init__`, lines 239-253, and `_remove_badpixels`)

The Python constructor receives the caller's `image`, `variance` and `mask`
arrays and performs exactly two groups of in-place writes to them before any
statistic is computed:

* lines 241-245: `locs_invalid = ~np.isfinite(image)` (or-ed with
  `~np.isfinite(variance)` when a variance array is given), then
  `variance[locs_invalid] = 0.0` and `image[locs_invalid] = 0.0` —
  these index-assignments write into the caller's arrays;
* lines 252-253 / 291-318: when `remove_outliers` is true,
  `_remove_badpixels` executes `image[bad_pixels] = 0.0` on the same array.

Every later computation builds new arrays (`np.where`, slicing plus
rebinding, `.copy()`), so the functions below give the exact contents of the
caller's buffers after construction. -/

/-- Lines 241-248: the non-finite zeroing pass.  Returns the new contents of
(the caller's) `image` and `variance` and the derived mask. -/
def initZeroPass (image : ℕ → ℕ → Val) (variance : Option (ℕ → ℕ → Val))
    (mask : ℕ → ℕ → Bool) :
    (ℕ → ℕ → Val) × Option (ℕ → ℕ → Val) × (ℕ → ℕ → Bool) :=
  let locsInvalid : ℕ → ℕ → Bool := fun i j =>
    !(image i j).isFinite ||
      (match variance with
       | some v => !(v i j).isFinite
       | none => false)
  (fun i j => if locsInvalid i j then Val.fin 0 else image i j,
   variance.map (fun v i j => if locsInvalid i j then Val.fin 0 else v i j),
   fun i j => mask i j || locsInvalid i j)

/-- The bad-pixel zeroing write (`image[bad_pixels] = 0.0`), lifted to `Val`
grids; it runs after the non-finite pass, so all entries are finite. -/
def badpixelZeroed (img : ℕ → ℕ → Val) (ny nx : ℕ) (nSigma : ℚ) :
    ℕ → ℕ → Val :=
  fun i j =>
    if isBadPixel (fun a b => (img a b).toRat) ny nx nSigma i j
    then Val.fin 0 else img i j

/-- Contents of the caller's `image` and `variance` buffers once
`SourceMorphology.__init__` has finished (no later stage writes to them). -/
def arraysAfterInit (removeOutliers : Bool) (image : ℕ → ℕ → Val)
    (variance : Option (ℕ → ℕ → Val)) (mask : ℕ → ℕ → Bool) (ny nx : ℕ)
    (nSigma : ℚ) : (ℕ → ℕ → Val) × Option (ℕ → ℕ → Val) :=
  let passed := initZeroPass image variance mask
  (if removeOutliers then badpixelZeroed passed.1 ny nx nSigma else passed.1,
   passed.2.1)

/-- Concrete input for the C5 counterexample: a 2×2 image whose (0,0) entry
is non-finite, with an everywhere-finite variance plane and no mask. -/
def c5Image : ℕ → ℕ → Val := fun i j =>
  if i = 0 ∧ j = 0 then Val.nan else Val.fin 1

def c5Variance : ℕ → ℕ → Val := fun _ _ => Val.fin 2

/-- **C5 counterexample.**  The claim says the bad-pixel zeroing pass is the
single mutation of the caller's arrays.  Here `remove_outliers = false`, so
the bad-pixel pass never runs, yet after construction the caller's image at
(0,0) has been overwritten (nan → 0) and so has the caller's variance
(2 → 0): the non-finite zeroing pass of lines 241-245 is a second, distinct
in-place mutation. -/
theorem C5_mutation_cex :
    (arraysAfterInit false c5Image (some c5Variance) (fun _ _ => false)
        2 2 10).1 0 0 ≠ c5Image 0 0 ∧
    ((arraysAfterInit false c5Image (some c5Variance) (fun _ _ => false)
        2 2 10).2.map (fun g => g 0 0)) = some (Val.fin 0) ∧
    Val.fin 0 ≠ c5Variance 0 0 := by
  refine ⟨?_, ?_, ?_⟩
  · simp [arraysAfterInit, initZeroPass, c5Image, Val.isFinite]
  · simp [arraysAfterInit, initZeroPass, c5Image, c5Variance, Val.isFinite]
  · simp [c5Variance]

/-- **C5 amended.**  The engine performs two upstream in-place mutations of
the caller's arrays: the non-finite zeroing pass (image and variance) and,
when `remove_outliers` is enabled, the bad-pixel zeroing (image).  In
particular with `remove_outliers = false` the caller's image and variance
are unchanged at every position whose image and variance entries are
finite. -/
theorem C5_no_other_mutation (image : ℕ → ℕ → Val)
    (variance : ℕ → ℕ → Val) (mask : ℕ → ℕ → Bool) (ny nx : ℕ) (nSigma : ℚ)
    (i j : ℕ) (him : (image i j).isFinite = true)
    (hvar : (variance i j).isFinite = true) :
    (arraysAfterInit false image (some variance) mask ny nx nSigma).1 i j
        = image i j ∧
    ((arraysAfterInit false image (some variance) mask ny nx
        nSigma).2.map (fun g => g i j)) = some (variance i j) := by
  constructor
  · simp [arraysAfterInit, initZeroPass, him, hvar]
  · simp [arraysAfterInit, initZeroPass, him, hvar]

/-- Witness for `C5_no_other_mutation` at a concrete all-finite input. -/
theorem C5_no_other_mutation_witness :
    (arraysAfterInit false (fun _ _ => Val.fin 3) (some fun _ _ => Val.fin 4)
        (fun _ _ => false) 2 2 10).1 0 0 = Val.fin 3 ∧
    ((arraysAfterInit false (fun _ _ => Val.fin 3)
        (some fun _ _ => Val.fin 4) (fun _ _ => false) 2 2 10).2.map
      (fun g => g 0 0)) = some (Val.fin 4) :=
  C5_no_other_mutation (fun _ _ => Val.fin 3) (fun _ _ => Val.fin 4)
    (fun _ _ => false) 2 2 10 0 0 rfl rfl

/-! ## Signal-to-noise per pixel (`sn_per_pixel`, lines 817-838)

`pixelvals` are the stamp values at the positions selected by
`self._segmap_gini & (cutout >= 0)` and `variance` the variance values at
the same positions (zeros when no variance array was given); `skySigmaSq` is
`self._sky_sigma**2` (non-finite when there is no skybox).  `np.sqrt` — whose
float semantics (nan on negative input, irrational outputs) is outside the
rational embedding — is passed in as an explicit capability `sqrtFn`; no
theorem below depends on its values. -/

/-- Pointwise `q + v` where `v` may be non-finite. -/
def addQV (q : ℚ) : Val → Val
  | .fin s => .fin (q + s)
  | .nan => .nan

/-- Apply the sqrt capability, propagating non-finite inputs. -/
def applySqrt (sqrtFn : ℚ → Val) : Val → Val
  | .fin q => sqrtFn q
  | .nan => .nan

/-- `p / d` in float semantics: division by zero and by a non-finite value
yields a non-finite result (inf or nan — the code only tests finiteness). -/
def divQV (p : ℚ) : Val → Val
  | .fin d => if d = 0 then .nan else .fin (p / d)
  | .nan => .nan

/-- `np.mean`: nan on an empty list or when any entry is non-finite. -/
def meanVal (l : List Val) : Val :=
  if l.isEmpty then .nan
  else if l.any (fun v => !v.isFinite) then .nan
  else .fin ((l.map Val.toRat).sum / l.length)

/-- Lines 827-830: when any variance entry is negative, a warning is printed
and the absolute values are used instead; nothing else happens — in
particular `self.flag` is not touched here. -/
def snAdjustedVariance (variance : List ℚ) : List ℚ :=
  if variance.any (fun v => v < 0) then variance.map (fun v => |v|)
  else variance

/-- Lines 832-833: `snp = np.mean(pixelvals / np.sqrt(variance + sky_sigma²))`. -/
def snpValue (sqrtFn : ℚ → Val) (pixelvals variance : List ℚ)
    (skySigmaSq : Val) : Val :=
  meanVal ((pixelvals.zip (snAdjustedVariance variance)).map
    (fun pv => divQV pv.1 (applySqrt sqrtFn (addQV pv.2 skySigmaSq))))

/-- Lines 822-838 of `sn_per_pixel`: the only flag-raising condition is a
non-finite mean, in which case the sentinel `-99` is substituted. -/
def snPerPixel (sqrtFn : ℚ → Val) (pixelvals variance : List ℚ)
    (skySigmaSq : Val) (flag : Bool) : Val × Bool :=
  let snp := snpValue sqrtFn pixelvals variance skySigmaSq
  if !snp.isFinite then (.fin (-99), true) else (snp, flag)

/-- sqrt capability used by the C3 counterexample (only its value at `4`
matters; elsewhere it conservatively returns non-finite). -/
def c3Sqrt : ℚ → Val := fun q => if q = 4 then .fin 2 else .nan

/-- **C3 counterexample.**  The claim says a negative variance entry makes
the code use its absolute value *and* raise the general quality flag.  At
this concrete input (`pixelvals = [3]`, `variance = [-4]`, zero sky sigma)
the absolute value is indeed used (the result `3/2 = 3/sqrt(4)` is finite),
but the returned flag is still `false`: lines 828-830 only print a warning
and never touch `self.flag`. -/
theorem C3_negative_variance_cex :
    ([(-4 : ℚ)].any (fun v => v < 0) = true) ∧
    snPerPixel c3Sqrt [3] [-4] (Val.fin 0) false = (Val.fin (3/2), false) := by
  constructor
  · simp
  · unfold snPerPixel snpValue snAdjustedVariance meanVal
    norm_num [c3Sqrt, addQV, applySqrt, divQV, Val.toRat, Val.isFinite]

theorem map_abs_of_no_neg (l : List ℚ) (h : ∀ x ∈ l, ¬ x < 0) :
    l.map (fun v => |v|) = l := by
  induction l with
  | nil => rfl
  | cons a t ih =>
      have ha : ¬ a < 0 := h a (List.mem_cons_self a t)
      simp only [List.map_cons, abs_of_nonneg (not_lt.mp ha)]
      rw [ih (fun x hx => h x (List.mem_cons_of_mem a hx))]

/-- **C3 amended.**  Negative variance entries are replaced by their
absolute values (the computation coincides with the one on `|variance|`),
but this replacement never raises the general quality flag: the output flag
is the input flag or-ed with non-finiteness of the mean, independently of
variance signs. -/
theorem C3_negative_variance_amended (sqrtFn : ℚ → Val)
    (pixelvals variance : List ℚ) (skySigmaSq : Val) (flag : Bool) :
    snpValue sqrtFn pixelvals variance skySigmaSq
      = snpValue sqrtFn pixelvals (variance.map (fun v => |v|)) skySigmaSq ∧
    (snPerPixel sqrtFn pixelvals variance skySigmaSq flag).2
      = (flag || !(snpValue sqrtFn pixelvals variance skySigmaSq).isFinite) := by
  constructor
  · unfold snpValue
    congr 2
    unfold snAdjustedVariance
    have habs : ∀ x ∈ variance.map (fun v => |v|), ¬ x < 0 := by
      intro x hx
      rcases List.mem_map.mp hx with ⟨y, _, rfl⟩
      exact not_lt.mpr (abs_nonneg y)
    have hmapany : (variance.map (fun v => |v|)).any (fun v => v < 0) = false := by
      rw [List.any_eq_false]
      intro x hx
      simpa using habs x hx
    rw [hmapany]
    by_cases hneg : variance.any (fun v => v < 0) = true
    · rw [if_pos hneg, if_neg (by simp)]
    · rw [if_neg hneg, if_neg (by simp)]
      rw [map_abs_of_no_neg]
      intro x hx
      have hfalse : (variance.any fun v => decide (v < 0)) = false :=
        Bool.eq_false_iff.mpr hneg
      have := List.any_eq_false.mp hfalse x hx
      simpa using this
  · unfold snPerPixel
    cases hf : (snpValue sqrtFn pixelvals variance skySigmaSq).isFinite <;> simp [hf]

/-! ## Skybox search (`_slice_skybox`, lines 844-889)

The stamp-sized segmap and mask are index functions with dimensions
`ny × nx`; `border` is `self._border_size` and `size` the current
`self._skybox_size`.  The Python `while True` loop is embedded with a fuel
argument (`none` = the loop did not terminate within the fuel; with
`border ≥ 1` a fuel of `size + 2` always suffices since `size` halves). -/

/-- One candidate box at rows `i..i+size-1`, columns `j..j+size-1`:
`np.all(segmap[boxslice] == 0) and np.all(~mask[boxslice])`. -/
def boxOk (segmap : ℕ → ℕ → ℤ) (mask : ℕ → ℕ → Bool) (i j size : ℕ) : Bool :=
  (List.range size).all fun a => (List.range size).all fun b =>
    segmap (i + a) (j + b) == 0 && !mask (i + a) (j + b)

/-- The row-major scan `for i in range(border, ny-border-size): for j in
range(border, nx-border-size)`, returning the first acceptable box position.
The Python ranges are empty when their stop is below their start, hence the
truncating `Int.toNat` on the counts. -/
def skyboxSearch (segmap : ℕ → ℕ → ℤ) (mask : ℕ → ℕ → Bool)
    (ny nx border size : ℕ) : Option (ℕ × ℕ) :=
  (List.range ((ny : ℤ) - 2 * border - size).toNat).findSome? fun ki =>
    (List.range ((nx : ℤ) - 2 * border - size).toNat).findSome? fun kj =>
      if boxOk segmap mask (border + ki) (border + kj) size
      then some (border + ki, border + kj) else none

/-- Outcome of `_slice_skybox`: the box position and side, and whether this
call raised the general quality flag. -/
structure SkyboxResult where
  pos : ℕ × ℕ
  size : ℕ
  flagRaised : Bool
deriving DecidableEq, Repr

/-- Lines 865-886: scan at the current size; on failure, fall back to the
fixed corner box when `skybox_size < border_size` (strict!), otherwise halve
the size (`//= 2`) and retry. -/
def sliceSkyboxLoop (segmap : ℕ → ℕ → ℤ) (mask : ℕ → ℕ → Bool)
    (ny nx border : ℕ) : ℕ → ℕ → Option SkyboxResult
  | 0, _ => none
  | fuel + 1, size =>
    match skyboxSearch segmap mask ny nx border size with
    | some ij => some ⟨ij, size, false⟩
    | none =>
      if size < border then some ⟨(border, border), size, true⟩
      else sliceSkyboxLoop segmap mask ny nx border fuel (size / 2)

/-- `_slice_skybox` including the initial lines 858-863 guard (stamp smaller
than twice the border: flag and empty slice, encoded as a size-0 box). -/
def sliceSkybox (segmap : ℕ → ℕ → ℤ) (mask : ℕ → ℕ → Bool)
    (ny nx border size fuel : ℕ) : Option SkyboxResult :=
  if nx < 2 * border ∨ ny < 2 * border then some ⟨(0, 0), 0, true⟩
  else sliceSkyboxLoop segmap mask ny nx border fuel size

/-- **C4 counterexample.**  Claim: as soon as `skybox_size ≤ border_size`
(including equality) the search falls back to the corner box.  Concrete
input: a 12×12 stamp entirely covered by a source (`segmap ≡ 1`), no mask,
`border_size = 2` and `skybox_size = 2`.  At equality the code does *not*
fall back: it halves to 1, fails again, and only then (1 < 2) returns the
corner box — with side 1, not the claimed side 2. -/
theorem C4_skybox_cex :
    sliceSkybox (fun _ _ => 1) (fun _ _ => false) 12 12 2 2 10
      = some ⟨(2, 2), 1, true⟩ ∧ (1 : ℕ) ≠ 2 := by
  refine ⟨by decide, by decide⟩

/-- **C4 amended.**  When no acceptable box of the current size exists, the
code falls back to the corner box (with the *current* size, flag raised)
exactly when `skybox_size < border_size` strictly; whenever
`border_size ≤ skybox_size` — including equality — it halves the size and
retries. -/
theorem C4_skybox_amended (segmap : ℕ → ℕ → ℤ) (mask : ℕ → ℕ → Bool)
    (ny nx border size fuel : ℕ)
    (hsearch : skyboxSearch segmap mask ny nx border size = none) :
    (size < border →
      sliceSkyboxLoop segmap mask ny nx border (fuel + 1) size
        = some ⟨(border, border), size, true⟩) ∧
    (border ≤ size →
      sliceSkyboxLoop segmap mask ny nx border (fuel + 1) size
        = sliceSkyboxLoop segmap mask ny nx border fuel (size / 2)) := by
  constructor
  · intro hlt
    simp [sliceSkyboxLoop, hsearch, hlt]
  · intro hle
    simp [sliceSkyboxLoop, hsearch, Nat.not_lt.mpr hle]

/-- Witness for `C4_skybox_amended`: all-source 12×12 stamp, box side 1,
border 2 — the strict fallback fires. -/
theorem C4_skybox_amended_witness :
    sliceSkyboxLoop (fun _ _ => 1) (fun _ _ => false) 12 12 2 (3 + 1) 1
      = some ⟨(2, 2), 1, true⟩ :=
  (C4_skybox_amended (fun _ _ => 1) (fun _ _ => false) 12 12 2 1 3
    (by decide)).1 (by decide)

/-! ## Root bracketing machinery shared by C1 and C2

`scipy.optimize.brentq` (an external 1-D root-finding capability) is
modelled by an executable bisection that always returns a point of the
bracketing interval; no theorem depends on more than that.  Python
exceptions are modelled by `Except PyError`. -/

/-- The two Python exceptions that the embedded functions can raise. -/
inductive PyError where
  | rootNotFoundInRange
  | assertionFailed
deriving DecidableEq, Repr

/-- Executable stand-in for `opt.brentq`: bisection with fuel, returning a
point of `[a, b]`. -/
def bisect (f : ℚ → ℚ) : ℕ → ℚ → ℚ → ℚ
  | 0, a, b => (a + b) / 2
  | n + 1, a, b =>
    let m := (a + b) / 2
    if f m = 0 then m
    else if f a * f m < 0 then bisect f n a m
    else bisect f n m b

/-! ## Fraction-of-total radius helper
(`_radius_at_fraction_of_total`, lines 71-119)

`phot r` is the external exact-aperture photometry capability: the flux of
`image` inside the circle of radius `r` about the snapped
(`floor + 0.5`) center.  The 100-point grid is
`np.linspace(r_inner, r_total, 100)`, i.e. `r_i = r_inner + i·Δ/99`. -/

/-- `_fraction_of_total_function` (lines 61-69): the aperture sum is forced
positive with `np.abs`. -/
def fractionOfTotalFunction (phot : ℚ → ℚ) (total fraction r : ℚ) : ℚ :=
  |phot r| / total - fraction

/-- Outcome of the 100-point coarse scan of lines 95-114. -/
inductive FracScanOutcome where
  | exact (r : ℚ) (flag : Bool)
  | bracket (rmin rmax : ℚ) (flag : Bool)
  | exhausted
deriving DecidableEq, Repr

/-- The scan loop, with `fuel = npoints - i` (started at `fuel = 100`,
`i = 0`, so `fuel = 0` is exactly the Python condition `i >= npoints`).
`curval < 0` records `r_min`; `curval > 0` before any `r_min` only prints a
warning and sets the local flag. -/
def fracScanAux (phot : ℚ → ℚ) (total fraction rInner rTotal : ℚ) :
    ℕ → ℕ → Option ℚ → Bool → FracScanOutcome
  | 0, _, _, _ => .exhausted
  | fuel + 1, i, rmin, flag =>
    let r := rInner + i * ((rTotal - rInner) / 99)
    let c := fractionOfTotalFunction phot total fraction r
    if c = 0 then .exact r flag
    else if c < 0 then
      fracScanAux phot total fraction rInner rTotal fuel (i + 1) (some r) flag
    else
      match rmin with
      | none => fracScanAux phot total fraction rInner rTotal fuel (i + 1) none true
      | some a => .bracket a r flag

/-- `_radius_at_fraction_of_total` (lines 71-119).  A non-positive total
flux returns `(np.nan, flag = 1)`; `assert(r_total > r_inner)` and the
`raise Exception('Root not found within range.')` of line 99 are
exceptions. -/
def radiusAtFractionOfTotal (phot : ℚ → ℚ) (rTotal fraction : ℚ) :
    Except PyError (Val × Bool) :=
  if phot rTotal ≤ 0 then .ok (.nan, true)
  else if min (1 / 2) (1 / 5 * rTotal) < rTotal then
    match fracScanAux phot (phot rTotal) fraction (min (1 / 2) (1 / 5 * rTotal))
        rTotal 100 0 none false with
    | .exhausted => .error .rootNotFoundInRange
    | .exact r flag => .ok (.fin r, flag)
    | .bracket a b flag =>
      .ok (.fin (bisect (fractionOfTotalFunction phot (phot rTotal) fraction)
                   50 a b),
           flag)
  else .error .assertionFailed

/-- For the C1 counterexample input (`phot = id`, total `1`, target fraction
`0`) every grid value is positive, so the scan exhausts all 100 points. -/
theorem fracScan_id_exhausts (fuel i : ℕ) (flag : Bool) :
    fracScanAux id 1 0 (1 / 5) 1 fuel i none flag = .exhausted := by
  induction fuel generalizing i flag with
  | zero => rfl
  | succ fuel ih =>
      have hr : (0 : ℚ) < 1 / 5 + i * ((1 - 1 / 5) / 99) := by positivity
      have hc : fractionOfTotalFunction id 1 0 (1 / 5 + i * ((1 - 1 / 5) / 99))
          = 1 / 5 + i * ((1 - 1 / 5) / 99) := by
        unfold fractionOfTotalFunction
        rw [id_eq, abs_of_pos hr]
        ring
      show (if _ = 0 then _ else if _ < 0 then _ else _) = _
      rw [hc, if_neg (ne_of_gt hr), if_neg (not_lt.mpr (le_of_lt hr))]
      exact ih (i + 1) true

/-- **C1 counterexample.**  The claim says that when the 100-point coarse
scan exhausts its range without a bracket, the helper sets the flag and
returns a value, like the Petrosian solver.  Concrete input: `phot = id`
(flux grows linearly), `r_total = 1` (total flux `1 > 0`), target fraction
`0`.  Every grid value of the scan function is positive, no bracket is ever
found, and the helper *raises* `Exception('Root not found within range.')`
(line 99) instead of returning. -/
theorem C1_raise_cex :
    radiusAtFractionOfTotal id 1 0 = .error .rootNotFoundInRange ∧
    (0 : ℚ) < id 1 := by
  constructor
  · unfold radiusAtFractionOfTotal
    simp only [id_eq]
    have hmin : min ((1 : ℚ) / 2) (1 / 5 * 1) = 1 / 5 := by norm_num
    rw [hmin, if_neg (by norm_num), if_pos (by norm_num), fracScan_id_exhausts]
  · norm_num

/-- **C1 amended.**  When the scan exhausts its 100 points without finding
a bracket (and the total flux was positive, so the scan was reached at
all), `_radius_at_fraction_of_total` raises
`Exception('Root not found within range.')` — it does *not* follow the
Petrosian solver's flag-and-continue policy for this case.  (Only the
partial failure "positive value seen before any negative value" is handled
by flag-and-continue, and a non-positive total by flag-and-sentinel.) -/
theorem C1_scan_exhaustion_raises (phot : ℚ → ℚ) (rTotal fraction : ℚ)
    (htotal : 0 < phot rTotal)
    (hinner : min (1 / 2) (1 / 5 * rTotal) < rTotal)
    (hexh : fracScanAux phot (phot rTotal) fraction
      (min (1 / 2) (1 / 5 * rTotal)) rTotal 100 0 none false = .exhausted) :
    radiusAtFractionOfTotal phot rTotal fraction = .error .rootNotFoundInRange := by
  unfold radiusAtFractionOfTotal
  rw [if_neg (not_le.mpr htotal), if_pos hinner, hexh]

/-- Witness for `C1_scan_exhaustion_raises` at the concrete input of the
counterexample. -/
theorem C1_scan_exhaustion_raises_witness :
    radiusAtFractionOfTotal id 1 0 = .error .rootNotFoundInRange :=
  C1_scan_exhaustion_raises id 1 0 (by norm_num) (by norm_num)
    (by
      have hmin : min ((1 : ℚ) / 2) (1 / 5 * 1) = 1 / 5 := by norm_num
      simp only [id_eq]
      rw [hmin]
      exact fracScan_id_exhausts 100 0 false)

/-! ## Petrosian radius solver
(`_rpetro_circ_generic`, lines 541-586, and `_rpetro_ellip_generic`, lines
645-691; the two scan loops are textually identical)

`f` is the Petrosian function `r ↦ annulus-to-aperture ratio − eta` at the
chosen center (for the elliptical variant: at the chosen center, elongation
and orientation); it consumes external exact-aperture photometry.  The scan
starts at `r_inner = annulus_width`, steps by
`dr = (r_outer - r_inner)/99` with `r_outer = diagonal distance`, and the
`while True` loop has **no** exit tied to `r_outer`: reaching `r >= r_outer`
only prints a warning and sets the flag, after which scanning continues
beyond the range until a sign change (or exact zero) occurs. -/

/-- Outcome of the Petrosian coarse scan. -/
inductive PetroOutcome where
  | exact (r : ℚ) (flag : Bool)
  | bracket (rmin rmax : ℚ) (flag : Bool)
deriving DecidableEq, Repr

/-- Soundness predicate for a Petrosian scan outcome: an exact outcome is a
root of `f`, a bracket outcome straddles a sign change, and any outcome
produced at or beyond `r_outer` carries a raised flag. -/
def PetroOutcomeOK (f : ℚ → ℚ) (rOuter : ℚ) : PetroOutcome → Prop
  | .exact ρ fl => f ρ = 0 ∧ (rOuter ≤ ρ → fl = true)
  | .bracket a b fl => 0 < f a ∧ f b < 0 ∧ (rOuter ≤ b → fl = true)

/-- Lines 562-581 / 667-686.  Fuel models the unbounded `while True`;
`none` means the loop is still running after `fuel` iterations (on inputs
whose `f` never changes sign the Python loop indeed never breaks). -/
def petroScanAux (f : ℚ → ℚ) (rOuter dr : ℚ) :
    ℕ → ℚ → Option ℚ → Bool → Option PetroOutcome
  | 0, _, _, _ => none
  | fuel + 1, r, rmin, flag =>
    let flag1 := if rOuter ≤ r then true else flag
    let c := f r
    if c = 0 then some (.exact r flag1)
    else if 0 < c then petroScanAux f rOuter dr fuel (r + dr) (some r) flag1
    else
      match rmin with
      | none => petroScanAux f rOuter dr fuel (r + dr) none true
      | some a => some (.bracket a r flag1)

/-- `_rpetro_circ_generic` / `_rpetro_ellip_generic` assembled: coarse scan
then `brentq` on the bracket. -/
def rpetroGeneric (f : ℚ → ℚ) (annulusWidth diag : ℚ) (fuel : ℕ) :
    Except PyError (Option (ℚ × Bool)) :=
  if annulusWidth < diag then
    match petroScanAux f diag ((diag - annulusWidth) / 99) fuel annulusWidth
        none false with
    | none => .ok none
    | some (.exact r flag) => .ok (some (r, flag))
    | some (.bracket a b flag) => .ok (some (bisect f 50 a b, flag))
  else .error .assertionFailed

/-- On the C2 counterexample input (`f r = 3 - r`, `r_outer = 2`,
`dr = 1/99`) the scan walks `r = 1 + k/99` with positive values throughout
`[1, 2]` and beyond, and stops only at `r = 3` where `f` is exactly zero;
the flag has been raised since `r ≥ 2`. -/
theorem petroScan_cex_runs (fuel k : ℕ) (rmin : Option ℚ) (flag : Bool)
    (hk : k ≤ 198) (hfuel : 198 - k < fuel) :
    petroScanAux (fun r => 3 - r) 2 (1 / 99) fuel (1 + k / 99) rmin flag
      = some (.exact 3 true) := by
  induction fuel generalizing k rmin flag with
  | zero => omega
  | succ fuel ih =>
      show (if _ = 0 then _ else if _ < _ then _ else _) = _
      rcases eq_or_lt_of_le hk with hk198 | hklt
      · have hr : (1 : ℚ) + k / 99 = 3 := by
          rw [hk198]; push_cast; norm_num
        have hc : (3 : ℚ) - (1 + k / 99) = 0 := by rw [hr]; norm_num
        rw [if_pos hc]
        have hflag : (if (2 : ℚ) ≤ 1 + k / 99 then true else flag) = true := by
          rw [if_pos (by rw [hr]; norm_num)]
        rw [hflag, hr]
      · have hkq : (k : ℚ) ≤ 197 := by
          have : k ≤ 197 := by omega
          exact_mod_cast this
        have hc : (0 : ℚ) < 3 - (1 + k / 99) := by
          nlinarith
        rw [if_neg (ne_of_gt hc), if_pos hc]
        have hnext : (1 : ℚ) + k / 99 + 1 / 99 = 1 + (k + 1 : ℕ) / 99 := by
          push_cast; ring
        rw [hnext]
        exact ih (k + 1) _ _ (by omega) (by omega)

/-- **C2 counterexample.**  The claim says that when the coarse scan
exhausts `[r_inner, r_outer]` without a sign change, the solver reports the
boundary `r_outer` as the Petrosian radius.  Concrete input:
`f r = 3 - r` (positive on all of `[1, 2]`), `annulus_width = 1`, diagonal
`2`.  The scan does raise the flag on reaching `r_outer = 2`, but then
*keeps scanning beyond the range* and returns `3` — not the boundary
`2`. -/
theorem C2_boundary_cex :
    rpetroGeneric (fun r => 3 - r) 1 2 250 = .ok (some (3, true)) ∧
    (3 : ℚ) ≠ 2 := by
  constructor
  · unfold rpetroGeneric
    have hdr : ((2 : ℚ) - 1) / 99 = 1 / 99 := by norm_num
    have hscan : petroScanAux (fun r => 3 - r) 2 (1 / 99) 250 1 none false
        = some (.exact 3 true) := by
      have h := petroScan_cex_runs 250 0 none false (by omega) (by omega)
      norm_num at h
      exact h
    rw [if_pos (by norm_num), hdr, hscan]
  · norm_num

/-- **C2 amended.**  The coarse scan raises the flag when it reaches
`r_outer` but does not stop there: it continues with the same step until a
sign change (or exact zero) of `f`, wherever that happens — possibly beyond
`r_outer`, in which case the outcome still carries `flag = true`; the
boundary value itself is never reported.  Formally, every outcome the scan
produces is an exact root or a genuine positive-to-negative bracket, and
any outcome produced at or beyond `r_outer` has the flag set. -/
theorem C2_scan_invariant (f : ℚ → ℚ) (rOuter dr : ℚ) (fuel : ℕ) (r : ℚ)
    (rmin : Option ℚ) (flag : Bool) (out : PetroOutcome)
    (hmin : ∀ a, rmin = some a → 0 < f a)
    (hrun : petroScanAux f rOuter dr fuel r rmin flag = some out) :
    PetroOutcomeOK f rOuter out := by
  induction fuel generalizing r rmin flag with
  | zero => exact absurd hrun (by simp [petroScanAux])
  | succ fuel ih =>
      simp only [petroScanAux] at hrun
      by_cases h0 : f r = 0
      · rw [if_pos h0] at hrun
        have h := Option.some.inj hrun
        subst h
        exact ⟨h0, fun hle => if_pos hle⟩
      · rw [if_neg h0] at hrun
        by_cases hpos : 0 < f r
        · rw [if_pos hpos] at hrun
          exact ih _ _ _ (fun a ha => by cases ha; exact hpos) hrun
        · rw [if_neg hpos] at hrun
          cases rmin with
          | none =>
              exact ih _ _ _ (fun a ha => by cases ha) hrun
          | some a =>
              have h := Option.some.inj hrun
              subst h
              exact ⟨hmin a rfl, lt_of_le_of_ne (not_lt.mp hpos) h0,
                fun hle => if_pos hle⟩

/-- Witness for `C2_scan_invariant` at the concrete counterexample scan:
the produced outcome is the exact root `3` with the flag set. -/
theorem C2_scan_invariant_witness :
    PetroOutcomeOK (fun r => (3 : ℚ) - r) 2 (.exact 3 true) :=
  C2_scan_invariant (fun r => 3 - r) 2 (1 / 99) 250 (1 + (0 : ℕ) / 99) none
    false (.exact 3 true) (fun a ha => by cases ha)
    (petroScan_cex_runs 250 0 none false (by omega) (by omega))

/-! ## Shared asymmetry function (`_asymmetry_function`, lines 955-1033)

The image rotation, symmetric-mask construction and aperture photometry are
external capabilities; the function consumes their results:
`apAbsSum = Σ|I(p)|` and `apAbsDiff = Σ|I180(p) − I(p)|` over the kind's
aperture, `apArea` the masked-aperture area (`_aperture_area`), `hlr` the
half-light radius and `rmx` the `rmax` statistic (both possibly non-finite),
and `skyAsym` the sky-asymmetry estimate.  What is embedded here is the
entire decision structure of lines 976-1033. -/

/-- The three asymmetry kinds of the string-dispatched Python function. -/
inductive AsymKind where
  | cas
  | outer
  | shape
deriving DecidableEq, Repr

/-- The aperture guard `np.isnan(v) or (v <= 0)` of lines 1003 and 1008. -/
def valNanOrNonpos : Val → Bool
  | .fin q => decide (q ≤ 0)
  | .nan => true

/-- Lines 976-1033 of `_asymmetry_function`. -/
def asymmetryFunction (kind : AsymKind) (center : ℚ × ℚ) (ny nx : ℕ)
    (hlr rmx : Val) (apAbsSum apAbsDiff apArea : ℚ) (skyAsym : Val)
    (flag : Bool) : ℚ × Bool :=
  if center.1 < 0 ∨ (nx : ℚ) ≤ center.1 ∨ center.2 < 0 ∨ (ny : ℚ) ≤ center.2
  then (100, true)
  else if kind = .outer ∧ (valNanOrNonpos hlr || valNanOrNonpos rmx) = true
  then (-99, true)
  else if kind = .shape ∧ valNanOrNonpos rmx = true then (-99, true)
  else if apAbsSum = 0 then (-99, true)
  else if kind = .shape then (apAbsDiff / apAbsSum, flag)
  else if skyAsym.isFinite = true then
    ((apAbsDiff - apArea * skyAsym.toRat) / apAbsSum, flag)
  else (apAbsDiff / apAbsSum, flag)

/-- **C7.**  For every in-bounds center (and valid apertures where the kind
requires one): a zero aperture sum returns the sentinel with the flag
raised for all three kinds; `shape` returns `diff/sum` with no sky
correction; `cas` and `outer` subtract `area × sky-asymmetry` from the
difference before dividing exactly when the sky estimate is finite, and
otherwise return `diff/sum`. -/
theorem C7_asymmetry_function (center : ℚ × ℚ) (ny nx : ℕ) (hlr rmx : Val)
    (s d area : ℚ) (sky : Val) (flag : Bool)
    (hin : ¬(center.1 < 0 ∨ (nx : ℚ) ≤ center.1 ∨ center.2 < 0 ∨
      (ny : ℚ) ≤ center.2)) :
    (s = 0 →
      asymmetryFunction .cas center ny nx hlr rmx s d area sky flag
        = (-99, true) ∧
      (valNanOrNonpos hlr = false → valNanOrNonpos rmx = false →
        asymmetryFunction .outer center ny nx hlr rmx s d area sky flag
          = (-99, true)) ∧
      (valNanOrNonpos rmx = false →
        asymmetryFunction .shape center ny nx hlr rmx s d area sky flag
          = (-99, true))) ∧
    (s ≠ 0 →
      (valNanOrNonpos rmx = false →
        asymmetryFunction .shape center ny nx hlr rmx s d area sky flag
          = (d / s, flag)) ∧
      (sky.isFinite = true →
        asymmetryFunction .cas center ny nx hlr rmx s d area sky flag
          = ((d - area * sky.toRat) / s, flag) ∧
        (valNanOrNonpos hlr = false → valNanOrNonpos rmx = false →
          asymmetryFunction .outer center ny nx hlr rmx s d area sky flag
            = ((d - area * sky.toRat) / s, flag))) ∧
      (sky.isFinite = false →
        asymmetryFunction .cas center ny nx hlr rmx s d area sky flag
          = (d / s, flag) ∧
        (valNanOrNonpos hlr = false → valNanOrNonpos rmx = false →
          asymmetryFunction .outer center ny nx hlr rmx s d area sky flag
            = (d / s, flag)))) := by
  refine ⟨fun hs => ⟨?_, fun h1 h2 => ?_, fun h2 => ?_⟩,
    fun hs => ⟨fun h2 => ?_, fun hsky => ⟨?_, fun h1 h2 => ?_⟩,
      fun hsky => ⟨?_, fun h1 h2 => ?_⟩⟩⟩ <;>
    simp [asymmetryFunction, hin, *]

/-- Witness for `C7_asymmetry_function`: in-bounds center `(1,1)` on a 3×3
stamp, valid radii, aperture sum `2`, difference `1`, area `4`, finite sky
asymmetry `1/2`: the `cas` result is the sky-corrected ratio with the flag
untouched. -/
theorem C7_asymmetry_function_witness :
    asymmetryFunction .cas (1, 1) 3 3 (.fin 1) (.fin 2) 2 1 4 (.fin (1/2))
      false = ((1 - 4 * (1/2)) / 2, false) :=
  (((C7_asymmetry_function (1, 1) 3 3 (.fin 1) (.fin 2) 2 1 4 (.fin (1/2))
      false (by push_cast; norm_num)).2 (by norm_num)).2.1 rfl).1

/-! ## rmax (`rmax`, lines 1657-1682)

The code measures Euclidean distances from the snapped asymmetry center
`(⌊xc⌋ + 1/2, ⌊yc⌋ + 1/2)` to the pixel centers `(j + 1/2, i + 1/2)` of the
shape-asymmetry segmap and takes their maximum.  Both endpoints live on the
same half-integer grid, so each squared distance is the integer
`(j − ⌊xc⌋)² + (i − ⌊yc⌋)²`; we embed the squared quantities (`np.sqrt` is
monotone and nonnegative, so `rmax < 1 ↔ rmaxSq < 1` and
`rmax = 0 ↔ rmaxSq = 0`). -/

/-- Squared distance from the snapped center (given by its floors) to the
center of pixel `p = (i, j)` (row, column). -/
def distSq (fx fy : ℤ) (p : ℕ × ℕ) : ℤ :=
  ((p.2 : ℤ) - fx) ^ 2 + ((p.1 : ℤ) - fy) ^ 2

/-- The integer `distSq` is exactly the rational squared distance between
the half-integer-grid points the Python code uses. -/
theorem distSq_eq_rat_distance_sq (ax ay : ℚ) (p : ℕ × ℕ) :
    ((distSq ⌊ax⌋ ⌊ay⌋ p : ℤ) : ℚ)
      = (((p.2 : ℚ) + 1/2) - ((⌊ax⌋ : ℚ) + 1/2)) ^ 2
        + (((p.1 : ℚ) + 1/2) - ((⌊ay⌋ : ℚ) + 1/2)) ^ 2 := by
  unfold distSq
  push_cast
  ring

/-- `np.max(distances[segmap])`, squared: maximum of the squared distances
over the segmap pixels (`0` seed; on a nonempty list of squares this is the
true maximum since every entry is nonnegative). -/
def rmaxSq (ax ay : ℚ) (segpix : List (ℕ × ℕ)) : ℤ :=
  (segpix.map (distSq ⌊ax⌋ ⌊ay⌋)).foldr max 0

/-- Lines 1675-1682: the `rmax < 1` test (equivalently `rmaxSq < 1`) raises
the general quality flag. -/
def rmaxFlagged (ax ay : ℚ) (segpix : List (ℕ × ℕ)) (flag : Bool) :
    ℤ × Bool :=
  if rmaxSq ax ay segpix < 1 then (rmaxSq ax ay segpix, true)
  else (rmaxSq ax ay segpix, flag)

theorem zero_le_foldr_max (l : List ℤ) : 0 ≤ l.foldr max 0 := by
  induction l with
  | nil => exact le_refl 0
  | cons a t ih => exact le_trans ih (le_max_right a _)

/-- **C8.**  For every nonempty shape-asymmetry segmap: if the (squared)
`rmax` is `< 1` then it is exactly `0` — the internal
`assert(rmax == 0)` of line 1678 is valid, because the snapped center and
the pixel centers share the half-integer grid, making every squared
distance a nonnegative integer — and in that case the general quality flag
is raised. -/
theorem C8_rmax_degenerate (ax ay : ℚ) (segpix : List (ℕ × ℕ)) (flag : Bool)
    (hne : segpix ≠ []) (hlt : rmaxSq ax ay segpix < 1) :
    rmaxSq ax ay segpix = 0 ∧ (rmaxFlagged ax ay segpix flag).2 = true := by
  have h0 : 0 ≤ rmaxSq ax ay segpix := zero_le_foldr_max _
  refine ⟨by omega, ?_⟩
  unfold rmaxFlagged
  rw [if_pos hlt]

/-- Witness for `C8_rmax_degenerate`: single-pixel segmap `[(0,0)]` with
asymmetry center `(0, 0)`. -/
theorem C8_rmax_degenerate_witness :
    rmaxSq 0 0 [(0, 0)] = 0 ∧ (rmaxFlagged 0 0 [(0, 0)] false).2 = true :=
  C8_rmax_degenerate 0 0 [(0, 0)] false (by simp)
    (by simp [rmaxSq, distSq])

/-! ## Gini coefficient (`gini`, lines 754-772)

`image` is the flattened maskzeroed stamp and `segmap` the flattened Gini
segmap; the code takes `np.sort(np.abs(image[segmap]))` and applies the
rank formula of Lotz et al. (2004). -/

/-- `image[segmap]`: the image values at the segmap's true positions. -/
def pixelsIn (image : List ℚ) (segmap : List Bool) : List ℚ :=
  ((image.zip segmap).filter (fun p => p.2)).map (fun p => p.1)

/-- `np.sort(np.abs(vals))`: sorted absolute values, ascending. -/
def giniSorted (vals : List ℚ) : List ℚ :=
  List.insertionSort (· ≤ ·) (vals.map (fun v => |v|))

/-- Lines 762-772: with `n` sorted values and 1-indexed ranks `i`,
`gini = Σ(2i - n - 1)·v_i / ((n-1)·Σv_i)`, or the sentinel `-99` with the
flag raised when `n ≤ 1` or the sum is zero. -/
def giniOf (vals : List ℚ) (flag : Bool) : ℚ × Bool :=
  let sorted := giniSorted vals
  let n := sorted.length
  if n ≤ 1 ∨ sorted.sum = 0 then (-99, true)
  else
    (((Finset.range n).sum
        (fun i => (2 * ((i : ℚ) + 1) - n - 1) * sorted.getD i 0))
      / (((n : ℚ) - 1) * sorted.sum), flag)

/-- `gini` assembled from stamp and segmap. -/
def gini (image : List ℚ) (segmap : List Bool) (flag : Bool) : ℚ × Bool :=
  giniOf (pixelsIn image segmap) flag

theorem giniSorted_sorted (vals : List ℚ) :
    (giniSorted vals).Sorted (· ≤ ·) :=
  List.sorted_insertionSort _ _

theorem giniSorted_nonneg (vals : List ℚ) :
    ∀ x ∈ giniSorted vals, 0 ≤ x := by
  intro x hx
  have hmem : x ∈ vals.map (fun v => |v|) :=
    (List.perm_insertionSort (· ≤ ·) (vals.map (fun v => |v|))).mem_iff.mp hx
  rcases List.mem_map.mp hmem with ⟨y, _, rfl⟩
  exact abs_nonneg y

theorem list_sum_eq_range_sum (l : List ℚ) :
    l.sum = (Finset.range l.length).sum (fun i => l.getD i 0) := by
  induction l with
  | nil => simp
  | cons a t ih =>
      rw [List.sum_cons, List.length_cons, Finset.sum_range_succ', ih]
      simp
      ring

theorem giniSorted_getD_nonneg (vals : List ℚ) (i : ℕ) :
    0 ≤ (giniSorted vals).getD i 0 := by
  by_cases hi : i < (giniSorted vals).length
  · rw [List.getD_eq_getElem _ _ hi]
    exact giniSorted_nonneg vals _ (List.getElem_mem hi)
  · rw [List.getD_eq_default _ _ (not_lt.mp hi)]

theorem giniSorted_getD_mono (vals : List ℚ) (i j : ℕ) (hij : i ≤ j)
    (hj : j < (giniSorted vals).length) :
    (giniSorted vals).getD i 0 ≤ (giniSorted vals).getD j 0 := by
  have hi : i < (giniSorted vals).length := lt_of_le_of_lt hij hj
  rw [List.getD_eq_get _ _ hi, List.getD_eq_get _ _ hj]
  exact (giniSorted_sorted vals).rel_get_of_le hij

theorem sum_range_two_add_one (n : ℕ) :
    (Finset.range n).sum (fun i => (2 : ℚ) * i + 1) = (n : ℚ) ^ 2 := by
  induction n with
  | zero => simp
  | succ n ih =>
      rw [Finset.sum_range_succ, ih]
      push_cast
      ring

/-- The rank coefficients `2(i+1) - n - 1` sum to zero over `i < n`. -/
theorem gini_coeff_sum_zero (n : ℕ) :
    (Finset.range n).sum (fun i => (2 : ℚ) * ((i : ℚ) + 1) - n - 1) = 0 := by
  have h : ∀ i : ℕ, (2 : ℚ) * ((i : ℚ) + 1) - n - 1
      = ((2 : ℚ) * i + 1) - n := by
    intro i; ring
  rw [Finset.sum_congr rfl (fun i _ => h i), Finset.sum_sub_distrib,
    sum_range_two_add_one]
  simp [Finset.sum_const, nsmul_eq_mul]
  ring

/-- Chebyshev lower bound: for the ascending nonnegative sorted values the
rank-weighted sum is nonnegative. -/
theorem gini_numerator_nonneg (vals : List ℚ)
    (hn : 0 < (giniSorted vals).length) :
    0 ≤ (Finset.range (giniSorted vals).length).sum
      (fun i => (2 * ((i : ℚ) + 1) - (giniSorted vals).length - 1)
        * (giniSorted vals).getD i 0) := by
  have hmono : MonovaryOn (fun i : ℕ => (giniSorted vals).getD i 0)
      (fun i : ℕ => (2 : ℚ) * ((i : ℚ) + 1) - (giniSorted vals).length - 1)
      (Finset.range (giniSorted vals).length) := by
    intro i hi j hj hgij
    have hgij2 : (2 : ℚ) * ((i : ℚ) + 1) - (giniSorted vals).length - 1
        < (2 : ℚ) * ((j : ℚ) + 1) - (giniSorted vals).length - 1 := hgij
    have hij : (i : ℚ) < j := by linarith
    have hijn : i ≤ j := le_of_lt (by exact_mod_cast hij)
    exact giniSorted_getD_mono vals i j hijn
      (Finset.mem_range.mp (Finset.mem_coe.mp hj))
  have hcheb := hmono.sum_mul_sum_le_card_mul_sum
  rw [gini_coeff_sum_zero, mul_zero, Finset.card_range] at hcheb
  have hsum : 0 ≤ (Finset.range (giniSorted vals).length).sum
      (fun i => (giniSorted vals).getD i 0
        * ((2 : ℚ) * ((i : ℚ) + 1) - (giniSorted vals).length - 1)) := by
    by_contra hneg
    push_neg at hneg
    have hprod : ((giniSorted vals).length : ℚ)
        * (Finset.range (giniSorted vals).length).sum
          (fun i => (giniSorted vals).getD i 0
            * ((2 : ℚ) * ((i : ℚ) + 1) - (giniSorted vals).length - 1)) < 0 := by
      apply mul_neg_of_pos_of_neg _ hneg
      exact_mod_cast hn
    linarith
  calc (0 : ℚ) ≤ _ := hsum
    _ = _ := Finset.sum_congr rfl (fun i _ => mul_comm _ _)

/-- Termwise upper bound: the rank-weighted sum is at most `(n-1)` times
the total. -/
theorem gini_numerator_le (vals : List ℚ) :
    (Finset.range (giniSorted vals).length).sum
      (fun i => (2 * ((i : ℚ) + 1) - (giniSorted vals).length - 1)
        * (giniSorted vals).getD i 0)
      ≤ (((giniSorted vals).length : ℚ) - 1) * (giniSorted vals).sum := by
  rw [list_sum_eq_range_sum (giniSorted vals), Finset.mul_sum]
  apply Finset.sum_le_sum
  intro i hi
  have hi1 : i + 1 ≤ (giniSorted vals).length := Finset.mem_range.mp hi
  have hiq : ((i : ℚ) + 1) ≤ ((giniSorted vals).length : ℚ) := by
    exact_mod_cast hi1
  apply mul_le_mul_of_nonneg_right _ (giniSorted_getD_nonneg vals i)
  linarith

/-- **C6.**  Let `v_1 ≤ … ≤ v_n` be the sorted absolute stamp values inside
the Gini segmap.  If `n > 1` and their sum is positive, then
`gini = Σ(2i-n-1)·v_i / ((n-1)·Σv_i)`, this value lies in `[0, 1]`, and the
flag is untouched; otherwise (`n ≤ 1` or zero sum) the result is exactly
the sentinel `-99` with the general quality flag raised. -/
theorem C6_gini_bounds (image : List ℚ) (segmap : List Bool) (flag : Bool) :
    (1 < (giniSorted (pixelsIn image segmap)).length ∧
        0 < (giniSorted (pixelsIn image segmap)).sum →
      (gini image segmap flag).1
        = ((Finset.range (giniSorted (pixelsIn image segmap)).length).sum
            (fun i => (2 * ((i : ℚ) + 1)
              - (giniSorted (pixelsIn image segmap)).length - 1)
              * (giniSorted (pixelsIn image segmap)).getD i 0))
          / ((((giniSorted (pixelsIn image segmap)).length : ℚ) - 1)
            * (giniSorted (pixelsIn image segmap)).sum) ∧
      0 ≤ (gini image segmap flag).1 ∧ (gini image segmap flag).1 ≤ 1 ∧
      (gini image segmap flag).2 = flag) ∧
    ((giniSorted (pixelsIn image segmap)).length ≤ 1 ∨
        (giniSorted (pixelsIn image segmap)).sum = 0 →
      gini image segmap flag = (-99, true)) := by
  constructor
  · rintro ⟨hn1, hsum⟩
    have hcond : ¬((giniSorted (pixelsIn image segmap)).length ≤ 1 ∨
        (giniSorted (pixelsIn image segmap)).sum = 0) := by
      push_neg
      exact ⟨by omega, ne_of_gt hsum⟩
    have hginival : gini image segmap flag
        = (((Finset.range (giniSorted (pixelsIn image segmap)).length).sum
            (fun i => (2 * ((i : ℚ) + 1)
              - (giniSorted (pixelsIn image segmap)).length - 1)
              * (giniSorted (pixelsIn image segmap)).getD i 0))
          / ((((giniSorted (pixelsIn image segmap)).length : ℚ) - 1)
            * (giniSorted (pixelsIn image segmap)).sum), flag) := by
      show (if _ ∨ _ then _ else _) = _
      rw [if_neg hcond]
    rw [hginival]
    have hden : (0 : ℚ) < (((giniSorted (pixelsIn image segmap)).length : ℚ) - 1)
        * (giniSorted (pixelsIn image segmap)).sum := by
      apply mul_pos _ hsum
      have h1 : (1 : ℚ) < ((giniSorted (pixelsIn image segmap)).length : ℚ) := by
        exact_mod_cast hn1
      linarith
    refine ⟨rfl, ?_, ?_, rfl⟩
    · exact div_nonneg (gini_numerator_nonneg _ (by omega)) (le_of_lt hden)
    · rw [div_le_one hden]
      exact gini_numerator_le _
  · intro hcond
    show (if _ ∨ _ then _ else _) = _
    rw [if_pos hcond]

/-- Witness for `C6_gini_bounds` on the two-pixel stamp `[1, -2]` with a
full segmap: `n = 2`, sum `3`, `gini = ((-1)·1 + 1·2)/(1·3) = 1/3`. -/
theorem C6_gini_bounds_witness :
    0 ≤ (gini [1, -2] [true, true] false).1 ∧
    (gini [1, -2] [true, true] false).1 ≤ 1 ∧
    (gini [1, -2] [true, true] false).2 = false := by
  have hpix : pixelsIn [1, -2] [true, true] = [1, -2] := by
    simp [pixelsIn]
  have hsorted : giniSorted (pixelsIn [1, -2] [true, true]) = [1, 2] := by
    rw [hpix]
    show List.insertionSort _ [|(1 : ℚ)|, |(-2 : ℚ)|] = [1, 2]
    norm_num [List.insertionSort, List.orderedInsert]
  have h := (C6_gini_bounds [1, -2] [true, true] false).1
    (by rw [hsorted]; norm_num)
  exact ⟨h.2.1, h.2.2.1, h.2.2.2⟩

/-! ## Quality flags (`__init__` lines 258-260 and every later write)

`self.flag` and `self.flag_sersic` are initialized to `0` at lines 259-260,
before any statistic is computed.  Every subsequent write to `self.flag` in
`statmorph.py` has one of exactly two shapes:

* `self.flag = 1` (lines 276, 359, 364, 535, 567, 577, 639, 671, 681, 738,
  745, 765, 801, 835, 861, 877, 981, 1004, 1009, 1020, 1050, 1157, 1211,
  1260, 1289, 1312, 1434, 1538, 1553, 1627, 1649, 1680);
* `self.flag = max(self.flag, flag)` with a boolean-valued local `flag`
  (lines 1154 and 1576, merging the helper flag of
  `_radius_at_fraction_of_total`).

`self.flag_sersic` is written only at line 488, as `self.flag_sersic = 1`.
Both update shapes are monotone, so any sequence of engine operations can
only leave a flag unchanged or set it. -/

/-- The two flag-write shapes occurring in the source. -/
inductive FlagOp where
  | set
  | merge (b : Bool)
deriving DecidableEq, Repr

/-- Semantics of one flag write (`1` is `true`, `max` is `or`). -/
def flagUpdate (f : Bool) : FlagOp → Bool
  | .set => true
  | .merge b => f || b

/-- Lines 259-260: both flags start cleared. -/
def initFlags : Bool × Bool := (false, false)

/-- A sequence of flag writes applied in program order. -/
def runFlagOps (f : Bool) (ops : List FlagOp) : Bool :=
  ops.foldl flagUpdate f

/-- **C9.**  Both quality flags start false; every flag write of the engine
is monotone (a set flag is never cleared by any sequence of writes), and
the embedded statistic computations respect this: each one returns flag
`true` whenever it is entered with flag `true`. -/
theorem C9_flags_monotone :
    initFlags = (false, false) ∧
    (∀ f : Bool, ∀ op : FlagOp, f = true → flagUpdate f op = true) ∧
    (∀ f : Bool, ∀ ops : List FlagOp, f = true → runFlagOps f ops = true) ∧
    (∀ vals : List ℚ, (giniOf vals true).2 = true) ∧
    (∀ sqrtFn : ℚ → Val, ∀ pv var : List ℚ, ∀ σ : Val,
      (snPerPixel sqrtFn pv var σ true).2 = true) ∧
    (∀ kind center ny nx hlr rmx s d area sky,
      (asymmetryFunction kind center ny nx hlr rmx s d area sky true).2
        = true) ∧
    (∀ ax ay : ℚ, ∀ segpix : List (ℕ × ℕ),
      (rmaxFlagged ax ay segpix true).2 = true) := by
  refine ⟨rfl, ?_, ?_, ?_, ?_, ?_, ?_⟩
  · intro f op hf
    subst hf
    cases op <;> simp [flagUpdate]
  · intro f ops hf
    subst hf
    induction ops with
    | nil => rfl
    | cons op t ih =>
        show runFlagOps (flagUpdate true op) t = true
        have hop : flagUpdate true op = true := by
          cases op <;> simp [flagUpdate]
        rw [hop]
        exact ih
  · intro vals
    simp [giniOf, apply_ite Prod.snd]
  · intro sqrtFn pv var σ
    simp [snPerPixel, apply_ite Prod.snd]
  · intro kind center ny nx hlr rmx s d area sky
    simp [asymmetryFunction, apply_ite Prod.snd]
  · intro ax ay segpix
    simp [rmaxFlagged, apply_ite Prod.snd]

/-- Witness for `C9_flags_monotone`: a merge write cannot clear a set
flag. -/
theorem C9_flags_monotone_witness :
    flagUpdate true (FlagOp.merge false) = true :=
  C9_flags_monotone.2.1 true (FlagOp.merge false) rfl

end Statmorph
